import Mathlib

set_option maxRecDepth 8000

/-!
Shallow embedding of the OOXML/MS-OFFCRYPTO password decryption core
(source file: source/detail/crypto/xlsx_crypto.cpp).

Conventions of the embedding:
* machine bytes are `Nat` values (< 256 on real inputs) and buffers are `List Nat`;
* every multi-byte integer is read little-endian, matching the behaviour of the
  source's raw pointer casts on its little-endian target platforms;
* the source reads raw memory with unchecked `reinterpret_cast`; an attempted
  read or slice past the end of a buffer is undefined behaviour in the C++ and
  is modelled here by the distinguished outcome `DecryptError.oobRead`, which is
  different from every thrown `xlnt::exception`;
* the SHA-1/SHA-512 and AES primitives, the compound-document container and the
  XML pull parser are external collaborators of this core; they are passed in as
  function parameters (`CryptoPrims`, `open_storage`, `agile_decode`) and the
  XML event stream of the keyEncryptors loop is modelled as a list of child
  elements.
-/

namespace Xlnt

inductive HashAlg
  | sha1
  | sha512
  deriving DecidableEq

inductive cipher_algorithm
  | aes
  | rc2
  | rc4
  | des
  | desx
  | triple_des
  | triple_des_112
  deriving DecidableEq

structure CryptoPrims where
  sha1 : List Nat → List Nat
  sha512 : List Nat → List Nat
  aesEcbDecrypt : List Nat → List Nat → List Nat
  aesCbcDecrypt : List Nat → List Nat → List Nat → List Nat

/-- Dispatch of the source's `hash(algorithm, input)` helper. -/
def hashWith (p : CryptoPrims) : HashAlg → List Nat → List Nat
  | .sha1, x => p.sha1 x
  | .sha512, x => p.sha512 x

inductive DecryptError
  | emptyFile
  | notOle
  | oobRead
  | badHeader
  | unsupportedVersion
  | extensibleNotSupported
  | notOoxml
  | invalidCipher
  | invalidHashAlg
  | invalidProviderType
  | invalidHeader
  | invalidProvider
  | unsupportedHashName
  | unsupportedKeyEncryptorType
  | noPasswordKey
  | badPassword
  deriving DecidableEq

/-- Little-endian value of a byte list. -/
def leVal : List Nat → Nat
  | [] => 0
  | b :: r => b + 256 * leVal r

/-- The `w` little-endian bytes of `v` (modulo 2^(8*w)). -/
def leBytes : Nat → Nat → List Nat
  | 0, _ => []
  | w + 1, v => v % 256 :: leBytes w (v / 256)

/-- Four little-endian bytes of a 32-bit counter. -/
def le4 (n : Nat) : List Nat := leBytes 4 n

/-- UTF-16LE byte serialization of a list of 16-bit code units, as produced by
the source's per-character byte copies of a `std::u16string`. -/
def utf16le (password : List Nat) : List Nat :=
  (password.map (fun c => [c % 256, c / 256 % 256])).flatten

/-- Semantics of `std::vector::resize(n)`: truncate to `n` elements or pad with
`v` up to `n` elements. -/
def resize (n : Nat) (v : Nat) (l : List Nat) : List Nat :=
  l.take n ++ List.replicate (n - l.length) v

/-- Reinterpret a byte buffer as little-endian 16-bit units, as the source's
`reinterpret_cast<const uint16_t *>` iterator pair does. -/
def toU16 : List Nat → List Nat
  | a :: b :: r => (a + 256 * b) :: toU16 r
  | [a] => [a]
  | [] => []

/-- The source's `read_int<T>` at a given offset: an unchecked
`reinterpret_cast` read, modelled with the out-of-bounds access surfaced as
`DecryptError.oobRead`. -/
def read_int (w idx : Nat) (raw_data : List Nat) : Except DecryptError Nat :=
  if idx + w ≤ raw_data.length then .ok (leVal ((raw_data.drop idx).take w))
  else .error .oobRead

/-- A raw iterator-range slice of the buffer, with the out-of-bounds access
surfaced as `DecryptError.oobRead`. -/
def read_bytes (idx len : Nat) (raw_data : List Nat) : Except DecryptError (List Nat) :=
  if idx + len ≤ raw_data.length then .ok ((raw_data.drop idx).take len)
  else .error .oobRead

structure standard_encryption_info where
  spin_count : Nat := 50000
  cipher : cipher_algorithm := .aes
  hash : HashAlg := .sha1
  key_bits : Nat
  key_bytes : Nat
  salt_value : List Nat
  verifier_hash_input : List Nat
  verifier_hash_value : List Nat

def provider_name_prototype : List Nat :=
  ("Microsoft Enhanced RSA and AES Cryptographic Provider (Prototype)".toList).map Char.toNat

def provider_name_plain : List Nat :=
  ("Microsoft Enhanced RSA and AES Cryptographic Provider".toList).map Char.toNat

/-- The fixed-layout binary header parse of `decrypt_xlsx_standard`
(source lines 168-234).  All offsets are those of the source's running
`offset` cursor; `csp_name_length` reproduces the source's `size_t`
subtraction `header_length - (offset - index_at_start)` modulo 2^64. -/
def decode_standard_header (encryption_info : List Nat) :
    Except DecryptError standard_encryption_info := do
  let header_length ← read_int 4 0 encryption_info
  let _skip_flags ← read_int 4 4 encryption_info
  let _size_extra ← read_int 4 8 encryption_info
  let alg_id ← read_int 4 12 encryption_info
  if ¬(alg_id = 0 ∨ alg_id = 0x660E ∨ alg_id = 0x660F ∨ alg_id = 0x6610) then
    throw .invalidCipher
  let alg_id_hash ← read_int 4 16 encryption_info
  if alg_id_hash ≠ 0x8004 ∧ alg_id_hash = 0 then
    throw .invalidHashAlg
  let key_bits ← read_int 4 20 encryption_info
  let provider_type ← read_int 4 24 encryption_info
  if ¬(provider_type = 0 ∨ provider_type = 0x18) then
    throw .invalidProviderType
  let _reserved1 ← read_int 4 28 encryption_info
  let reserved2 ← read_int 4 32 encryption_info
  if reserved2 ≠ 0 then
    throw .invalidHeader
  let csp_name_length := (header_length + (2 ^ 64 - 32)) % 2 ^ 64
  let csp_bytes ← read_bytes 36 csp_name_length encryption_info
  let csp_name := (toU16 csp_bytes).dropLast
  if ¬(csp_name = provider_name_prototype ∨ csp_name = provider_name_plain) then
    throw .invalidProvider
  let salt_size ← read_int 4 (36 + csp_name_length) encryption_info
  let salt_value ← read_bytes (36 + csp_name_length + 4) salt_size encryption_info
  let verifier_hash_input ←
    read_bytes (36 + csp_name_length + 4 + salt_size) 16 encryption_info
  let verifier_hash_size ←
    read_int 4 (36 + csp_name_length + 4 + salt_size + 16) encryption_info
  let verifier_hash_value ←
    read_bytes (36 + csp_name_length + 4 + salt_size + 16 + 4) verifier_hash_size encryption_info
  pure { key_bits := key_bits, key_bytes := key_bits / 8, salt_value := salt_value,
         verifier_hash_input := verifier_hash_input,
         verifier_hash_value := verifier_hash_value }

/-- One spin round of the source's `H_n = H(iterator + H_n-1)` loop, operating
on the mutable buffer `iterator_plus_h_n` exactly as the source does: the first
four bytes are overwritten with the little-endian iterator, the whole buffer is
hashed, and the digest is copied back into the buffer starting at offset 4.
`fuel` is the number of remaining rounds. -/
def spin_go (hashF : List Nat → List Nat) : Nat → Nat → List Nat → List Nat → List Nat
  | _, 0, _, h_n => h_n
  | i, fuel + 1, buf, _ =>
    let buf1 := le4 i ++ buf.drop 4
    let h_n := hashF buf1
    let buf2 := buf1.take 4 ++ h_n ++ buf1.drop (4 + h_n.length)
    spin_go hashF (i + 1) fuel buf2 h_n

/-- The key-derivation chain of both schemes (source lines 238-256 and
464-484): `H_0 = H(salt ++ password_bytes)`, then `spin` rounds of
`H_n = H(le32(iterator) ++ H_n-1)`.  As in the source, the running digest
variable starts out empty, so a spin count of zero yields the empty vector. -/
def derive_h_n (hashF : List Nat → List Nat) (salt pw_bytes : List Nat) (spin : Nat) : List Nat :=
  let h_0 := hashF (salt ++ pw_bytes)
  spin_go hashF 0 spin (List.replicate 4 0 ++ h_0) []

/-- Standard-scheme key material (source lines 258-285): `H_final`, the two
XOR-padded expansion blocks `X1`/`X2`, and truncation to `key_bytes`. -/
def standard_derive_key (p : CryptoPrims) (info : standard_encryption_info)
    (password : List Nat) : List Nat :=
  let h_n := derive_h_n (hashWith p info.hash) info.salt_value (utf16le password) info.spin_count
  let h_final := hashWith p info.hash (h_n ++ le4 0)
  let buf1 := (List.range 64).map (fun i =>
    if i < h_final.length then 0x36 ^^^ h_final.getD i 0 else 0x36)
  let x1 := hashWith p info.hash buf1
  let buf2 := (List.range 64).map (fun i =>
    if i < h_final.length then 0x5c ^^^ h_final.getD i 0 else 0x5c)
  let x2 := hashWith p info.hash buf2
  (x1 ++ x2).take info.key_bytes

/-- Standard-scheme package decryption (source lines 289-298): read the 8-byte
little-endian decrypted-length prefix, AES-ECB-decrypt the remainder in one
call, then `resize` the result to the prefix value.  `resize` zero-pads when
the prefix exceeds the physically decrypted length. -/
def decrypt_standard_package (p : CryptoPrims) (key pkg : List Nat) :
    Except DecryptError (List Nat) :=
  if 8 ≤ pkg.length then
    .ok (resize (leVal (pkg.take 8)) 0 (p.aesEcbDecrypt (pkg.drop 8) key))
  else .error .oobRead

/-- The whole standard path `decrypt_xlsx_standard` (source lines 163-299). -/
def decrypt_xlsx_standard (p : CryptoPrims) (encryption_info password pkg : List Nat) :
    Except DecryptError (List Nat) := do
  let info ← decode_standard_header encryption_info
  decrypt_standard_package p (standard_derive_key p info password) pkg

structure agile_key_data where
  salt_size : Nat
  block_size : Nat
  key_bits : Nat
  hash_size : Nat
  cipher_algorithm : String
  cipher_chaining : String
  hash_algorithm : String
  salt_value : List Nat
  deriving DecidableEq

structure agile_data_integrity where
  hmac_key : List Nat
  hmac_value : List Nat
  deriving DecidableEq

structure agile_key_encryptor where
  spin_count : Nat
  salt_size : Nat
  block_size : Nat
  key_bits : Nat
  hash_size : Nat
  cipher_algorithm : String
  cipher_chaining : String
  hash : HashAlg
  salt_value : List Nat
  verifier_hash_input : List Nat
  verifier_hash_value : List Nat
  encrypted_key_value : List Nat
  deriving DecidableEq

structure agile_encryption_info where
  key_data : agile_key_data
  data_integrity : agile_data_integrity
  key_encryptor : agile_key_encryptor
  deriving DecidableEq

/-- One child element of the `keyEncryptor` wrapper, as delivered by the
external XML pull parser: either the recognized password `encryptedKey`
element with its attributes, or some other element kind. -/
inductive key_encryptor_child
  | encryptedKey (spin_count salt_size block_size key_bits hash_size : Nat)
      (cipher_algorithm cipher_chaining hash_algorithm_string : String)
      (salt_value verifier_hash_input verifier_hash_value encrypted_key_value : List Nat)
  | otherEncryptor (ns name : String)
  deriving DecidableEq

def key_encryptor_child.isPasswordKey : key_encryptor_child → Bool
  | .encryptedKey .. => true
  | .otherEncryptor .. => false

/-- The `hashAlgorithm` attribute dispatch of the agile header decoder
(source lines 422-435). -/
def parse_hash_algorithm : String → Option HashAlg := fun s =>
  if s = "SHA512" then some .sha512
  else if s = "SHA1" then some .sha1
  else none

/-- The `keyEncryptor` children loop of `decrypt_xlsx_agile` (source lines
405-455): each recognized password `encryptedKey` child overwrites the
key-encryptor record and sets `any_password_key`; any other child raises the
unsupported-key-encryptor error; after the loop, the absence of a password
child is an error. -/
def parse_key_encryptors (children : List key_encryptor_child)
    (acc : agile_key_encryptor) (any_password_key : Bool) :
    Except DecryptError agile_key_encryptor :=
  match children with
  | [] => if any_password_key then .ok acc else .error .noPasswordKey
  | .encryptedKey sc ss bs kb hs ca cc han sv vhi vhv ekv :: rest =>
    match parse_hash_algorithm han with
    | none => .error .unsupportedHashName
    | some hAlg =>
      parse_key_encryptors rest
        { spin_count := sc, salt_size := ss, block_size := bs, key_bits := kb,
          hash_size := hs, cipher_algorithm := ca, cipher_chaining := cc,
          hash := hAlg, salt_value := sv, verifier_hash_input := vhi,
          verifier_hash_value := vhv, encrypted_key_value := ekv } true
  | .otherEncryptor _ _ :: _ => .error .unsupportedKeyEncryptorType

/-- The agile `calculate_block` lambda (source lines 488-502): hash the raw key
with the 8-byte block-key constant, resize to `key_bits/8`, and AES-CBC-decrypt
with the key-encryptor salt as IV. -/
def calculate_block (p : CryptoPrims) (ke : agile_key_encryptor)
    (raw_key block_key encrypted : List Nat) : List Nat :=
  let combined := raw_key ++ block_key
  let key := resize (ke.key_bits / 8) 0 (hashWith p ke.hash combined)
  p.aesCbcDecrypt encrypted key ke.salt_value

def input_block_key : List Nat := [0xfe, 0xa7, 0xd2, 0x76, 0x3b, 0x4b, 0x9e, 0x79]

def verifier_block_key : List Nat := [0xd7, 0xaa, 0x0f, 0x6d, 0x30, 0x61, 0x34, 0x4e]

def key_value_block_key : List Nat := [0x14, 0x6e, 0x0b, 0xe7, 0xab, 0xac, 0xd0, 0xd6]

/-- The agile key-derivation chain seeded from the key encryptor's salt, hash
kind and spin count (source lines 464-484). -/
def agile_h_n (p : CryptoPrims) (ke : agile_key_encryptor) (password : List Nat) : List Nat :=
  derive_h_n (hashWith p ke.hash) ke.salt_value (utf16le password) ke.spin_count

/-- The hash of the decrypted verifier-hash-input (source lines 504-506). -/
def calculated_verifier (p : CryptoPrims) (ke : agile_key_encryptor)
    (password : List Nat) : List Nat :=
  hashWith p ke.hash
    (calculate_block p ke (agile_h_n p ke password) input_block_key ke.verifier_hash_input)

/-- The decrypted verifier-hash-value, resized to the calculated verifier's
length (source lines 508-511). -/
def expected_verifier (p : CryptoPrims) (ke : agile_key_encryptor)
    (password : List Nat) : List Nat :=
  resize (calculated_verifier p ke password).length 0
    (calculate_block p ke (agile_h_n p ke password) verifier_block_key ke.verifier_hash_value)

/-- The package key of the agile scheme (source lines 521-523). -/
def package_key (p : CryptoPrims) (info : agile_encryption_info)
    (password : List Nat) : List Nat :=
  calculate_block p info.key_encryptor (agile_h_n p info.key_encryptor password)
    key_value_block_key info.key_encryptor.encrypted_key_value

/-- The agile segment loop (source lines 536-551).  `k` is the running 32-bit
segment counter embedded after the salt, `fuel` bounds the recursion and is
always at least the remaining ciphertext length at every call site. -/
def seg_loop (p : CryptoPrims) (alg : HashAlg) (key salt_base : List Nat) :
    Nat → Nat → List Nat → List Nat
  | _, 0, _ => []
  | _, _ + 1, [] => []
  | k, fuel + 1, a :: rest =>
    let iv := resize 16 0 (hashWith p alg (salt_base ++ le4 k))
    let seg := (a :: rest).take 4096
    let dec := resize seg.length 0 (p.aesCbcDecrypt seg key iv)
    dec ++ seg_loop p alg key salt_base (k + 1) fuel ((a :: rest).drop 4096)

/-- Agile package decryption (source lines 525-555): read the 8-byte
little-endian total size, decrypt the remainder in 4096-byte segments with a
fresh IV per segment, then `resize` the concatenation to the total size. -/
def agile_package_decrypt (p : CryptoPrims) (alg : HashAlg) (key salt_base : List Nat)
    (k0 : Nat) (pkg : List Nat) : Except DecryptError (List Nat) :=
  if 8 ≤ pkg.length then
    .ok (resize (leVal (pkg.take 8)) 0
      (seg_loop p alg key salt_base k0 (pkg.drop 8).length (pkg.drop 8)))
  else .error .oobRead

/-- The agile path after header decoding (source lines 462-555): derive the
key-encryptor hash chain, check the password verifier, then decrypt the
package.  `salt_with_block_key` is the key-data salt resized to
`salt_size + 4`; its first `salt_size` bytes seed the per-segment IV hash and
its last four bytes are the initial value of the mutated segment counter. -/
def decrypt_xlsx_agile (p : CryptoPrims) (info : agile_encryption_info)
    (password pkg : List Nat) : Except DecryptError (List Nat) :=
  let ke := info.key_encryptor
  if calculated_verifier p ke password = expected_verifier p ke password then
    let salt_size := info.key_data.salt_size
    let swbk := resize (salt_size + 4) 0 info.key_data.salt_value
    agile_package_decrypt p ke.hash (package_key p info password)
      (swbk.take salt_size) (leVal (swbk.drop salt_size)) pkg
  else .error .badPassword

inductive route_result
  | agile (rest : List Nat)
  | standard (rest : List Nat)
  | rerr (e : DecryptError)
  deriving DecidableEq

/-- The version/flags routing of `decrypt_xlsx` (source lines 578-620): read a
2-byte major version, 2-byte minor version and 4-byte flag word, strip those 8
bytes, and route to the agile or standard pipeline. -/
def route : List Nat → route_result
  | a :: b :: c :: d :: e :: f :: g :: h :: rest =>
    let major := a + 256 * b
    let minor := c + 256 * d
    let flags := e + 256 * f + 65536 * g + 16777216 * h
    if major = 4 ∧ minor = 4 then
      if flags = 0x40 then .agile rest else .rerr .badHeader
    else if minor ≠ 2 ∨ (major ≠ 2 ∧ major ≠ 3 ∧ major ≠ 4) then
      .rerr .unsupportedVersion
    else if flags &&& 3 ≠ 0 then .rerr .badHeader
    else if flags &&& 4 = 0 ∨ flags &&& 16 ≠ 0 then .rerr .extensibleNotSupported
    else if flags &&& 32 = 0 then .rerr .notOoxml
    else .standard rest
  | _ => .rerr .oobRead

/-- The two named streams of the compound-document container; an absent stream
is the empty byte list, as the source's `file` helper returns. -/
structure ole_compound where
  encrypted_package : List Nat
  encryption_info : List Nat

/-- The top-level `decrypt_xlsx` (source lines 558-621).  The compound-document
reader and the agile XML header decode are external collaborators passed as
`open_storage` and `agile_decode`. -/
def decrypt_xlsx (p : CryptoPrims)
    (agile_decode : List Nat → Except DecryptError agile_encryption_info)
    (open_storage : List Nat → Option ole_compound)
    (bytes password : List Nat) : Except DecryptError (List Nat) :=
  if bytes = [] then .error .emptyFile
  else
    match open_storage bytes with
    | none => .error .notOle
    | some storage =>
      match route storage.encryption_info with
      | .agile rest =>
        match agile_decode rest with
        | .error e => .error e
        | .ok info => decrypt_xlsx_agile p info password storage.encrypted_package
      | .standard rest => decrypt_xlsx_standard p rest password storage.encrypted_package
      | .rerr e => .error e

/-!
Specification-side definitions.  These are written from the specification's
words, to be compared with the definitions above that were translated from the
source.
-/

/-- Specification reading of the key-derivation chain: `H_0` is the hash of the
salt followed by the UTF-16LE password bytes, and each of the `spin` rounds
hashes the little-endian 32-bit iterator followed by the previous digest. -/
def spec_key_chain (hashF : List Nat → List Nat) (salt pw_bytes : List Nat) (spin : Nat) : List Nat :=
  (List.range spin).foldl (fun acc i => hashF (le4 i ++ acc)) (hashF (salt ++ pw_bytes))

/-- Index-threaded form of the specification chain, used to bridge the
source's in-place loop and the `foldl` form. -/
def key_chain (hashF : List Nat → List Nat) : Nat → Nat → List Nat → List Nat
  | _, 0, acc => acc
  | i, f + 1, acc => key_chain hashF (i + 1) f (hashF (le4 i ++ acc))

/-- Ceiling of `n / 4096`: the number of segments of an `n`-byte ciphertext. -/
def segment_count (n : Nat) : Nat := (n + 4095) / 4096

/-- Specification reading of agile package decryption: segment `i` is the
4096-byte ciphertext slice starting at byte `4096 * i`, AES-CBC-decrypted with
the package key and the IV `Hash(key_data_salt ++ le32(i))` truncated to 16
bytes, then truncated to the slice's own length. -/
def spec_segments (p : CryptoPrims) (alg : HashAlg) (key kd_salt ct : List Nat) :
    List (List Nat) :=
  (List.range (segment_count ct.length)).map (fun i =>
    (p.aesCbcDecrypt ((ct.drop (4096 * i)).take 4096) key
      ((hashWith p alg (kd_salt ++ le4 i)).take 16)).take
        ((ct.drop (4096 * i)).take 4096).length)

/-- Specification reading of the dispatcher's routing rule, on the already
parsed major version, minor version and flag word. -/
def spec_route (major minor flags : Nat) (rest : List Nat) : route_result :=
  if major = 4 ∧ minor = 4 then
    if flags = 0x40 then .agile rest else .rerr .badHeader
  else if minor ≠ 2 ∨ (major ≠ 2 ∧ major ≠ 3 ∧ major ≠ 4) then
    .rerr .unsupportedVersion
  else if flags &&& 3 ≠ 0 then .rerr .badHeader
  else if flags &&& 4 = 0 ∨ flags &&& 16 ≠ 0 then .rerr .extensibleNotSupported
  else if flags &&& 32 = 0 then .rerr .notOoxml
  else .standard rest

/-- Replacement of the agile encryption descriptor's `keyData.hashAlgorithm`
attribute, leaving every other field unchanged. -/
def set_key_data_hash_algorithm (info : agile_encryption_info) (s : String) :
    agile_encryption_info :=
  { info with key_data := { info.key_data with hash_algorithm := s } }

/-!
Concrete fixtures used by witnesses and counterexamples.
-/

/-- Concrete primitives used by witnesses: a constant 20-byte digest and
length-preserving identity ciphers. -/
def w_prims : CryptoPrims :=
  { sha1 := fun _ => List.replicate 20 1
    sha512 := fun _ => List.replicate 20 1
    aesEcbDecrypt := fun ct _ => ct
    aesCbcDecrypt := fun ct _ _ => ct }

def w_agile_decode : List Nat → Except DecryptError agile_encryption_info :=
  fun _ => .error .badHeader

/-- A container whose `EncryptionInfo` and `EncryptedPackage` streams are both
absent, so both read back as empty buffers. -/
def absent_streams : List Nat → Option ole_compound :=
  fun _ => some { encrypted_package := [], encryption_info := [] }

/-- An encrypted package whose 8-byte length prefix (100) exceeds the 16 bytes
of ciphertext that follow it. -/
def c3_package : List Nat := leBytes 8 100 ++ List.replicate 16 7

/-- A standard `EncryptionInfo` body (after the 8 version/flag bytes) that is
valid in every field except that its hash-algorithm id is `hash_id`:
AES cipher id 0x660E, 128 key bits, provider type 0x18, zero reserved words,
the known provider name, a 16-byte salt, the 16-byte verifier hash input and a
20-byte verifier hash value. -/
def c2_header (hash_id : Nat) : List Nat :=
  leBytes 4 140 ++ leBytes 4 0 ++ leBytes 4 0 ++ leBytes 4 0x660E ++ leBytes 4 hash_id ++
  leBytes 4 128 ++ leBytes 4 24 ++ leBytes 4 0 ++ leBytes 4 0 ++
  (provider_name_plain.map (fun c => [c % 256, c / 256 % 256])).flatten ++ [0, 0] ++
  leBytes 4 16 ++ List.replicate 16 1 ++ List.replicate 16 2 ++
  leBytes 4 20 ++ List.replicate 20 3

/-- A concrete hash function of constant digest length 2, used to witness the
key-derivation theorem. -/
def c5_hash (x : List Nat) : List Nat := [x.length % 256, x.sum % 256]

def w_key_encryptor_bad : agile_key_encryptor :=
  { spin_count := 0, salt_size := 0, block_size := 16, key_bits := 8, hash_size := 20,
    cipher_algorithm := "AES", cipher_chaining := "ChainingModeCBC", hash := .sha1,
    salt_value := [], verifier_hash_input := [1], verifier_hash_value := [2],
    encrypted_key_value := [] }

def w_key_encryptor_good : agile_key_encryptor :=
  { spin_count := 0, salt_size := 0, block_size := 16, key_bits := 8, hash_size := 20,
    cipher_algorithm := "AES", cipher_chaining := "ChainingModeCBC", hash := .sha1,
    salt_value := [], verifier_hash_input := [1],
    verifier_hash_value := List.replicate 20 1,
    encrypted_key_value := [] }

def w_key_data : agile_key_data :=
  { salt_size := 0, block_size := 16, key_bits := 8, hash_size := 20,
    cipher_algorithm := "AES", cipher_chaining := "ChainingModeCBC",
    hash_algorithm := "SHA1", salt_value := [] }

def w_info_bad : agile_encryption_info :=
  { key_data := w_key_data,
    data_integrity := { hmac_key := [], hmac_value := [] },
    key_encryptor := w_key_encryptor_bad }

def w_info_good : agile_encryption_info :=
  { key_data := w_key_data,
    data_integrity := { hmac_key := [], hmac_value := [] },
    key_encryptor := w_key_encryptor_good }

/-- A 13-byte encrypted package: length prefix 5 followed by 5 ciphertext
bytes, i.e. a single short segment. -/
def w_pkg : List Nat := leBytes 8 5 ++ List.replicate 5 9

def w_child_good : key_encryptor_child :=
  .encryptedKey 1 0 16 8 20 "AES" "ChainingModeCBC" "SHA1" [] [] [] []

/-!
Helper lemmas.
-/

lemma leBytes_length (w v : Nat) : (leBytes w v).length = w := by
  induction w generalizing v with
  | zero => simp [leBytes]
  | succ w ih => simp [leBytes, ih]

lemma le4_length (n : Nat) : (le4 n).length = 4 := leBytes_length 4 n

lemma resize_of_le (v : Nat) {n : Nat} {l : List Nat} (h : n ≤ l.length) :
    resize n v l = l.take n := by
  simp [resize, Nat.sub_eq_zero_of_le h]

lemma resize_append_self (v : List Nat) :
    resize (v.length + 4) 0 v = v ++ List.replicate 4 0 := by
  simp [resize, List.take_of_length_le (by omega : v.length ≤ v.length + 4)]

lemma swbk_take (v : List Nat) : (resize (v.length + 4) 0 v).take v.length = v := by
  rw [resize_append_self]; exact List.take_left v _

lemma swbk_drop (v : List Nat) :
    (resize (v.length + 4) 0 v).drop v.length = List.replicate 4 0 := by
  rw [resize_append_self]; exact List.drop_left v _

lemma key_chain_eq_foldl (hashF : List Nat → List Nat) :
    ∀ (f i : Nat) (acc : List Nat),
      key_chain hashF i f acc =
        (List.range' i f).foldl (fun acc j => hashF (le4 j ++ acc)) acc := by
  intro f
  induction f with
  | zero => intro i acc; simp [key_chain]
  | succ f ih =>
    intro i acc
    rw [key_chain, List.range'_succ, List.foldl_cons, ih]

lemma spin_go_chain (hashF : List Nat → List Nat) (d : Nat)
    (hd : ∀ x, (hashF x).length = d) :
    ∀ (f i : Nat) (pre acc h_prev : List Nat), pre.length = 4 → acc.length = d →
      spin_go hashF i (f + 1) (pre ++ acc) h_prev = key_chain hashF i (f + 1) acc := by
  intro f
  induction f with
  | zero =>
    intro i pre acc h_prev hpre hacc
    simp only [spin_go, key_chain]
    rw [← hpre, List.drop_left]
  | succ f ih =>
    intro i pre acc h_prev hpre hacc
    have hdrop : (pre ++ acc).drop 4 = acc := by rw [← hpre, List.drop_left]
    have htake : (le4 i ++ acc).take 4 = le4 i := by
      have := List.take_left (le4 i) acc
      rwa [le4_length] at this
    have hdrop2 : (le4 i ++ acc).drop (4 + (hashF (le4 i ++ acc)).length) = [] := by
      rw [hd, ← List.drop_drop]
      have h4 : (le4 i ++ acc).drop 4 = acc := by
        have := List.drop_left (le4 i) acc
        rwa [le4_length] at this
      rw [h4, ← hacc, List.drop_length]
    conv_lhs => rw [spin_go]
    simp only [hdrop, htake, hdrop2, List.append_nil]
    rw [ih (i + 1) (le4 i) (hashF (le4 i ++ acc)) (hashF (le4 i ++ acc))
      (le4_length i) (hd _)]
    conv_rhs => rw [key_chain]

lemma segment_count_pos (n : Nat) (hn : 0 < n) :
    segment_count n = segment_count (n - 4096) + 1 := by
  unfold segment_count
  omega

lemma seg_loop_length (p : CryptoPrims) (alg : HashAlg) (key salt_base : List Nat)
    (haes : ∀ ct k iv, (p.aesCbcDecrypt ct k iv).length = ct.length) :
    ∀ (fuel : Nat) (ct : List Nat) (k : Nat), ct.length ≤ fuel →
      (seg_loop p alg key salt_base k fuel ct).length = ct.length := by
  intro fuel
  induction fuel with
  | zero =>
    intro ct k hle
    have : ct = [] := List.length_eq_zero.mp (by omega)
    subst this
    simp [seg_loop]
  | succ fuel ih =>
    intro ct k hle
    cases ct with
    | nil => simp [seg_loop]
    | cons a rest =>
      simp only [seg_loop, List.length_append]
      rw [ih _ (k + 1) (by simp [List.length_drop] at hle ⊢; omega)]
      rw [resize_of_le 0 (le_of_eq (haes _ _ _).symm), List.length_take, haes]
      simp only [List.length_take, List.length_drop, List.length_cons]
      omega

lemma seg_loop_spec (p : CryptoPrims) (alg : HashAlg) (key salt_base : List Nat)
    (hiv : ∀ x, 16 ≤ (hashWith p alg x).length)
    (haes : ∀ ct k iv, (p.aesCbcDecrypt ct k iv).length = ct.length) :
    ∀ (fuel : Nat) (ct : List Nat) (k : Nat), ct.length ≤ fuel →
      seg_loop p alg key salt_base k fuel ct =
        ((List.range (segment_count ct.length)).map (fun i =>
          (p.aesCbcDecrypt ((ct.drop (4096 * i)).take 4096) key
            ((hashWith p alg (salt_base ++ le4 (k + i))).take 16)).take
              ((ct.drop (4096 * i)).take 4096).length)).flatten := by
  intro fuel
  induction fuel with
  | zero =>
    intro ct k hle
    have : ct = [] := List.length_eq_zero.mp (by omega)
    subst this
    simp [seg_loop, segment_count]
  | succ fuel ih =>
    intro ct k hle
    cases ct with
    | nil => simp [seg_loop, segment_count]
    | cons a rest =>
      rw [segment_count_pos _ (by simp), List.range_succ_eq_map]
      simp only [List.map_cons, List.flatten_cons, List.map_map]
      conv_lhs => rw [seg_loop]
      congr 1
      · simp only [Nat.mul_zero, List.drop_zero, Nat.add_zero]
        rw [resize_of_le 0 (hiv _), resize_of_le 0 (le_of_eq (haes _ _ _).symm)]
      · rw [ih ((a :: rest).drop 4096) (k + 1)
          (by simp [List.length_drop] at hle ⊢; omega)]
        rw [List.length_drop]
        congr 1
        apply List.map_congr_left
        intro i hi
        simp only [Function.comp_apply, Nat.succ_eq_add_one]
        rw [List.drop_drop]
        have h1 : 4096 + 4096 * i = 4096 * (i + 1) := by ring
        have h2 : k + 1 + i = k + (i + 1) := by omega
        rw [h1, h2]

lemma parse_key_encryptors_ok_all (children : List key_encryptor_child) :
    ∀ (acc : agile_key_encryptor) (b : Bool) (ke : agile_key_encryptor),
      parse_key_encryptors children acc b = .ok ke →
      ∀ c ∈ children, c.isPasswordKey = true := by
  induction children with
  | nil => intro acc b ke _ c hc; simp at hc
  | cons c0 rest ih =>
    intro acc b ke hok c hc
    cases c0 with
    | encryptedKey sc ss bs kb hs ca cc han sv vhi vhv ekv =>
      simp only [parse_key_encryptors] at hok
      cases hp : parse_hash_algorithm han with
      | none => rw [hp] at hok; simp at hok
      | some hAlg =>
        rw [hp] at hok
        rcases List.mem_cons.mp hc with rfl | hc2
        · rfl
        · exact ih _ _ _ hok c hc2
    | otherEncryptor ns name =>
      simp [parse_key_encryptors] at hok

lemma parse_key_encryptors_other_err (children : List key_encryptor_child) :
    ∀ (acc : agile_key_encryptor) (b : Bool),
      (∃ c ∈ children, c.isPasswordKey = false) →
      ∃ e, parse_key_encryptors children acc b = .error e := by
  induction children with
  | nil => intro acc b h; rcases h with ⟨c, hc, _⟩; simp at hc
  | cons c0 rest ih =>
    intro acc b h
    cases c0 with
    | otherEncryptor ns name =>
      exact ⟨.unsupportedKeyEncryptorType, by simp [parse_key_encryptors]⟩
    | encryptedKey sc ss bs kb hs ca cc han sv vhi vhv ekv =>
      cases hp : parse_hash_algorithm han with
      | none => exact ⟨.unsupportedHashName, by simp [parse_key_encryptors, hp]⟩
      | some hAlg =>
        have hrest : ∃ c ∈ rest, c.isPasswordKey = false := by
          rcases h with ⟨c, hc, hcp⟩
          rcases List.mem_cons.mp hc with rfl | hc2
          · simp [key_encryptor_child.isPasswordKey] at hcp
          · exact ⟨c, hc2, hcp⟩
        simp only [parse_key_encryptors, hp]
        exact ih _ true hrest

/-!
The claims.
-/

/-- Claim C1 (code bug witnessed): for a header buffer shorter than the fixed
fields — here the empty `EncryptionInfo` buffer produced when the named stream
is absent, and a three-byte standard header — decryption does not fail with a
corrupt-header error: the source performs an unchecked read past the end of
the buffer (undefined behaviour, modelled as the distinguished outcome
`DecryptError.oobRead`), because neither `read_int` nor any length-prefixed
slice is bounds-checked. -/
theorem c1_truncated_header_oob_read :
    decrypt_xlsx w_prims w_agile_decode absent_streams [1] [] = .error .oobRead
    ∧ decode_standard_header [1, 2, 3] = .error .oobRead :=
  ⟨rfl, rfl⟩

/-- Claim C2 (code bug witnessed): the standard header decoder accepts the
non-zero, non-SHA-1 hash-algorithm id 5 (the whole header parses successfully),
because the source's check `alg_id_hash != 0x8004 && alg_id_hash == 0` only
rejects the id 0; the claim requires every id other than 0x8004 and 0 to fail
with an unsupported-hash error. -/
theorem c2_nonzero_hash_id_accepted :
    (decode_standard_header (c2_header 5)).isOk = true
    ∧ decode_standard_header (c2_header 0) = .error .invalidHashAlg := by
  constructor
  · decide
  · rfl

/-- Claim C3 (code bug witnessed): when the 8-byte little-endian
decrypted-length prefix (here 100) exceeds the physically decrypted ciphertext
length (here 16), both the standard and the agile package decryptors return a
buffer silently zero-padded to the prefix value instead of failing with a
corrupt-file error. -/
theorem c3_length_prefix_silently_padded :
    decrypt_standard_package w_prims (List.replicate 16 0) c3_package
      = .ok (List.replicate 16 7 ++ List.replicate 84 0)
    ∧ agile_package_decrypt w_prims .sha1 (List.replicate 16 0) [] 0 c3_package
      = .ok (List.replicate 16 7 ++ List.replicate 84 0) :=
  ⟨rfl, rfl⟩

/-- Claim C4: on the agile path, whenever the calculated verifier differs from
the expected verifier (the decrypted verifier-hash-value truncated to the
calculated verifier's length), decryption fails with the bad-password error.
The conclusion holds for every `pkg`, and is the same error for all of them,
so no byte of the `EncryptedPackage` payload is decrypted before the failure.
The spin-count bound reflects that the source's loop counter is a 32-bit
integer. -/
theorem c4_agile_bad_password (p : CryptoPrims) (info : agile_encryption_info)
    (password pkg : List Nat)
    (hspin : info.key_encryptor.spin_count < 2 ^ 32)
    (hne : calculated_verifier p info.key_encryptor password ≠
      expected_verifier p info.key_encryptor password) :
    decrypt_xlsx_agile p info password pkg = .error .badPassword := by
  simp only [decrypt_xlsx_agile]
  rw [if_neg hne]

/-- Witness for claim C4 at a concrete header whose verifier comparison
fails. -/
theorem c4_agile_bad_password_witness :
    decrypt_xlsx_agile w_prims w_info_bad [] [7] = .error .badPassword :=
  c4_agile_bad_password w_prims w_info_bad [] [7] (by decide) (by decide)

/-- Claim C5: the key-derivation chain of both schemes computes
`H_0 = Hash(salt ++ utf16le(password))` and then, for `iterator` from 0 to
`spin - 1`, `H_n = Hash(le32(iterator) ++ H_n-1)`, with the iterator always
serialized as an unsigned 32-bit little-endian integer: the source's in-place
buffer loop equals the specification's fold, for any hash function of constant
digest length. -/
theorem c5_key_derivation_chain (hashF : List Nat → List Nat)
    (salt password : List Nat) (spin d : Nat)
    (hd : ∀ x, (hashF x).length = d) (hspin : 0 < spin) :
    derive_h_n hashF salt (utf16le password) spin =
      spec_key_chain hashF salt (utf16le password) spin := by
  obtain ⟨f, rfl⟩ : ∃ f, spin = f + 1 := ⟨spin - 1, by omega⟩
  simp only [derive_h_n, spec_key_chain]
  rw [spin_go_chain hashF d hd f 0 (List.replicate 4 0)
    (hashF (salt ++ utf16le password)) [] (by simp) (hd _)]
  rw [key_chain_eq_foldl, List.range_eq_range']

/-- Witness for claim C5 at a concrete hash of digest length 2, salt `[1, 2]`,
the one-character password `[65]` and spin count 3. -/
theorem c5_key_derivation_chain_witness :
    derive_h_n c5_hash [1, 2] (utf16le [65]) 3 =
      spec_key_chain c5_hash [1, 2] (utf16le [65]) 3 :=
  c5_key_derivation_chain c5_hash [1, 2] [65] 3 2 (fun _ => rfl) (by decide)

/-- Claim C6: on the agile path (with the verifier check passing, the key-data
salt of its declared size, digests of at least 16 bytes, a length-preserving
AES-CBC primitive, and a length prefix within the physical ciphertext), the
ciphertext after the 8-byte prefix is processed in consecutive 4096-byte
segments: exactly `ceil(n/4096)` of them for an `n`-byte ciphertext, segment
`i` AES-CBC-decrypted with the package key and the IV
`Hash(key_data_salt ++ le32(i))` truncated to 16 bytes, each truncated to its
slice's length, appended in order, and the concatenation truncated to the
8-byte length prefix. -/
theorem c6_agile_segmentation (p : CryptoPrims) (info : agile_encryption_info)
    (password pkg : List Nat)
    (hver : calculated_verifier p info.key_encryptor password =
      expected_verifier p info.key_encryptor password)
    (hsalt : info.key_data.salt_size = info.key_data.salt_value.length)
    (hiv : ∀ x, 16 ≤ (hashWith p info.key_encryptor.hash x).length)
    (haes : ∀ ct k iv, (p.aesCbcDecrypt ct k iv).length = ct.length)
    (h8 : 8 ≤ pkg.length)
    (htot : leVal (pkg.take 8) ≤ pkg.length - 8) :
    decrypt_xlsx_agile p info password pkg =
      .ok ((spec_segments p info.key_encryptor.hash (package_key p info password)
        info.key_data.salt_value (pkg.drop 8)).flatten.take (leVal (pkg.take 8))) := by
  simp only [decrypt_xlsx_agile]
  rw [if_pos hver, hsalt, swbk_take, swbk_drop]
  have hz : leVal (List.replicate 4 0) = 0 := rfl
  rw [hz]
  simp only [agile_package_decrypt]
  rw [if_pos h8]
  have hlen : leVal (pkg.take 8) ≤
      (seg_loop p info.key_encryptor.hash (package_key p info password)
        info.key_data.salt_value 0 (pkg.drop 8).length (pkg.drop 8)).length := by
    rw [seg_loop_length p _ _ _ haes _ _ _ (le_refl _), List.length_drop]
    exact htot
  rw [resize_of_le 0 hlen]
  rw [seg_loop_spec p _ _ _ hiv haes _ _ 0 (le_refl _)]
  simp only [spec_segments]
  congr 2
  congr 1
  apply List.map_congr_left
  intro i hi
  rw [Nat.zero_add]

/-- Witness for claim C6 at a concrete agile header whose verifier comparison
passes and a 13-byte package (prefix 5, one short segment). -/
theorem c6_agile_segmentation_witness :
    decrypt_xlsx_agile w_prims w_info_good [] w_pkg =
      .ok ((spec_segments w_prims w_info_good.key_encryptor.hash
        (package_key w_prims w_info_good []) w_info_good.key_data.salt_value
        (w_pkg.drop 8)).flatten.take (leVal (w_pkg.take 8))) :=
  c6_agile_segmentation w_prims w_info_good [] w_pkg (by decide) (by decide)
    (fun x => by show 16 ≤ (List.replicate 20 1).length; decide)
    (fun ct k iv => rfl) (by decide) (by decide)

/-- Claim C7 counterexample: a standard-path header with reserved flag bits
0-1 set (major 2, minor 2, flags 1) is rejected with `badHeader` — the very
error the source also throws for the agile flag-word check, i.e. a
corrupt-header error — and not with any of the dispatcher's
unsupported-configuration or not-this-format errors, refuting the claim's
error classification for the reserved-bits case. -/
theorem c7_reserved_bits_counterexample :
    route [2, 0, 2, 0, 1, 0, 0, 0] = .rerr .badHeader
    ∧ DecryptError.badHeader ≠ DecryptError.unsupportedVersion
    ∧ DecryptError.badHeader ≠ DecryptError.extensibleNotSupported
    ∧ DecryptError.badHeader ≠ DecryptError.notOoxml := by
  decide

/-- Claim C7 (amended): the dispatcher routes on the first 8 bytes of the
`EncryptionInfo` stream (2-byte little-endian major version, 2-byte minor
version, 4-byte flag word, then stripped): major 4 / minor 4 takes the agile
path when the flag word is exactly 0x40 and is a corrupt-header error
otherwise; every other version requires minor 2 and major in 2..4 (else an
unsupported-version error), flag bits 0-1 zero (else a corrupt-header error),
bit 2 set and bit 4 zero (else an extensible-encryption-unsupported error) and
bit 5 set (else a not-this-format error), and otherwise takes the standard
path. -/
theorem c7_dispatcher_routing (a b c d e f g h : Nat) (rest : List Nat) :
    route (a :: b :: c :: d :: e :: f :: g :: h :: rest) =
      spec_route (a + 256 * b) (c + 256 * d)
        (e + 256 * f + 65536 * g + 16777216 * h) rest :=
  rfl

/-- Claim C8: in the agile header decoder's `keyEncryptor` children loop,
any child that is not the recognized password `encryptedKey` element makes
decoding fail (the first such child raises the unsupported-key-encryptor
error), an empty child list fails with the no-password-key error, and decoding
succeeds only when at least one child is present and every child is a
password-type encryptor. -/
theorem c8_key_encryptor_children (children : List key_encryptor_child)
    (acc : agile_key_encryptor) :
    ((∃ c ∈ children, c.isPasswordKey = false) →
      ∃ e, parse_key_encryptors children acc false = .error e)
    ∧ (children = [] →
      parse_key_encryptors children acc false = .error .noPasswordKey)
    ∧ (∀ ke, parse_key_encryptors children acc false = .ok ke →
      children ≠ [] ∧ ∀ c ∈ children, c.isPasswordKey = true) := by
  refine ⟨parse_key_encryptors_other_err children acc false, ?_, ?_⟩
  · rintro rfl
    simp [parse_key_encryptors]
  · intro ke hok
    constructor
    · rintro rfl
      simp [parse_key_encryptors] at hok
    · exact parse_key_encryptors_ok_all children acc false ke hok

/-- Witness for claim C8 at a concrete one-element child list that parses
successfully. -/
theorem c8_key_encryptor_children_witness :
    ([w_child_good] : List key_encryptor_child) ≠ [] :=
  ((c8_key_encryptor_children [w_child_good] w_key_encryptor_bad).2.2 _ rfl).1

/-- Claim C9: for every password (and every container reader and agile
decoder), decrypting the empty byte sequence fails with the empty-input error;
the container-opening collaborator is universally quantified and never
invoked, so the failure happens before any compound-document parsing. -/
theorem c9_empty_input_rejected (p : CryptoPrims)
    (agile_decode : List Nat → Except DecryptError agile_encryption_info)
    (open_storage : List Nat → Option ole_compound) (password : List Nat) :
    decrypt_xlsx p agile_decode open_storage [] password = .error .emptyFile :=
  rfl

/-- Claim C10: the `keyData.hashAlgorithm` attribute is stored in the agile
descriptor but never used by decryption — the per-segment IV and all
block-key derivations use the key encryptor's hash algorithm — so two headers
differing only in that attribute decrypt identically, for every primitive
set, password and package. -/
theorem c10_key_data_hash_algorithm_unused (p : CryptoPrims)
    (info : agile_encryption_info) (s : String) (password pkg : List Nat) :
    decrypt_xlsx_agile p (set_key_data_hash_algorithm info s) password pkg =
      decrypt_xlsx_agile p info password pkg :=
  rfl

end Xlnt
